import Mathlib

/-!
Verification of the NeuraPath resume-vs-role fit-scoring pipeline
(`neurapath_demo.ipynb`) against its specification.

The notebook's core is embedded shallowly:
* dataframes become lists of record structures, in row order;
* Python floats become exact rationals (`ℚ`);
* Python sets of strings become `Finset String` (or deduplicated lists
  where only membership matters);
* pandas `value_counts` (descending by count) and
  `sort_values(..., ascending=False)` are modelled by the stable
  `List.insertionSort` with a non-strict "greater or equal key" relation,
  so equal keys keep their first-appearance order;
* Python regex search of `\b(tok1|tok2|...)\b` over lower-cased text is
  modelled positionally over `List Char`, with `\w` taken as ASCII
  alphanumeric or underscore (all data exercised here is ASCII).
-/

namespace NeuraPath

/-- A row of the `job_roles` table built in the notebook by merging
`job_industries` with the exploded industry→role map: columns
`job_id` and `role`. -/
structure JobRoleRow where
  job_id : Nat
  role : String
deriving DecidableEq, Repr

/-- A row of `job_skills.csv`: columns `job_id` and `skill_abr`. -/
structure JobSkillRow where
  job_id : Nat
  skill_abr : String
deriving DecidableEq, Repr

/-- A row of the `skills` catalog: columns `skill_abr` and `skill_name`. -/
structure SkillRow where
  skill_abr : String
  skill_name : String
deriving DecidableEq, Repr

/-- A row of the dataframe returned by `build_role_skill_profile`:
columns `skill_abr`, `skill_name` (possibly NaN after the left merge,
modelled as `Option`), `count`, `pct_jobs`, `required`, `role`. -/
structure ProfileEntry where
  skill_abr : String
  skill_name : Option String
  count : Nat
  pct_jobs : ℚ
  required : Bool
  role : String
deriving DecidableEq, Repr

/-- An intermediate row of `freq` after the merge with `skills` but
before the `required`/`role` columns are added. -/
structure RowB where
  skill_abr : String
  skill_name : Option String
  count : Nat
  pct_jobs : ℚ
deriving DecidableEq, Repr

/-- The dict returned by `build_fit_report`. -/
structure FitReport where
  resume_id : String
  role : String
  fit_score : ℚ
  matched_skills : List (Option String)
  missing_skills : List (Option String)
deriving DecidableEq, Repr

/-- Keep the first occurrence of each element, dropping later duplicates:
the semantics of pandas `Series.unique` (order of first appearance).
`seen` accumulates the values already emitted. -/
def uniqueKeepAux [DecidableEq α] (seen : List α) : List α → List α
  | [] => []
  | a :: l => if a ∈ seen then uniqueKeepAux seen l else a :: uniqueKeepAux (a :: seen) l

/-- pandas `Series.unique`: distinct values in order of first appearance. -/
def uniqueKeep [DecidableEq α] (l : List α) : List α :=
  uniqueKeepAux [] l

/-- `job_ids = job_roles.loc[job_roles.role == role, "job_id"].unique()`. -/
def jobsForRole (job_roles : List JobRoleRow) (role : String) : List Nat :=
  uniqueKeep ((job_roles.filter (fun r => r.role == role)).map (fun r => r.job_id))

/-- `js = job_skills[job_skills.job_id.isin(job_ids)]`. -/
def filteredLinks (job_roles : List JobRoleRow) (job_skills : List JobSkillRow)
    (role : String) : List JobSkillRow :=
  job_skills.filter (fun r => (jobsForRole job_roles role).contains r.job_id)

/-- `js.skill_abr.value_counts()`: pairs `(skill_abr, count)` sorted by
count descending; ties keep first-appearance order (stable sort). -/
def valueCounts (l : List String) : List (String × Nat) :=
  List.insertionSort (fun p q => q.2 ≤ p.2)
    ((uniqueKeep l).map (fun a => (a, l.countP (fun x => x == a))))

/-- One step of the left merge `freq.merge(skills, on="skill_abr", how="left")`:
a `freq` row with no catalog match survives with a missing name; a row with
several catalog matches is duplicated, one output row per match. -/
def mergeRows (skills : List SkillRow) (N : Nat) (ac : String × Nat) : List RowB :=
  if (skills.filter (fun s => s.skill_abr == ac.1)).isEmpty then
    [⟨ac.1, none, ac.2, (ac.2 : ℚ) / (N : ℚ)⟩]
  else
    (skills.filter (fun s => s.skill_abr == ac.1)).map
      (fun s => ⟨ac.1, some s.skill_name, ac.2, (ac.2 : ℚ) / (N : ℚ)⟩)

/-- The merged `freq` dataframe of `build_role_skill_profile`, carrying
`skill_abr`, `skill_name`, `count` and `pct_jobs = count / len(job_ids)`. -/
def profileRows (job_roles : List JobRoleRow) (job_skills : List JobSkillRow)
    (skills : List SkillRow) (role : String) : List RowB :=
  ((valueCounts ((filteredLinks job_roles job_skills role).map
      (fun r => r.skill_abr))).map
    (mergeRows skills (jobsForRole job_roles role).length)).flatten

/-- Add the `required` and `role` columns:
`freq["required"] = freq["pct_jobs"] >= required_pct; freq["role"] = role`. -/
def finalizeEntry (role : String) (required_pct : ℚ) (b : RowB) : ProfileEntry :=
  ⟨b.skill_abr, b.skill_name, b.count, b.pct_jobs,
    decide (required_pct ≤ b.pct_jobs), role⟩

set_option linter.unusedVariables false in
/-- `build_role_skill_profile(role, min_jobs=50, required_pct=0.30)` of the
notebook: empty job set short-circuits to an empty frame; otherwise count
skill occurrences over the role's jobs, divide by the number of distinct
jobs, left-merge names, flag `required`, and sort by `pct_jobs` descending
(`min_jobs` is accepted but never read in the body). -/
def build_role_skill_profile (job_roles : List JobRoleRow)
    (job_skills : List JobSkillRow) (skills : List SkillRow)
    (role : String) (min_jobs : Nat) (required_pct : ℚ) : List ProfileEntry :=
  if (jobsForRole job_roles role).length = 0 then []
  else
    List.insertionSort (fun a b => b.pct_jobs ≤ a.pct_jobs)
      ((profileRows job_roles job_skills skills role).map
        (finalizeEntry role required_pct))

/-- The notebook's `ROLE_KEYWORDS` dict, in insertion order. -/
def ROLE_KEYWORDS : List (String × List String) :=
  [("DATA_ANALYST", ["data", "analytics"]),
   ("ML_ENGINEER", ["software", "technology", "security"]),
   ("NETWORK_ADMIN", ["network", "telecommunications", "it system"]),
   ("FRONTEND_DEV", ["internet", "software", "web"]),
   ("IT_SUPPORT", ["consult", "it services", "services"])]

/-- `str.lower()` as a character list (ASCII case folding). -/
def lowerChars (s : String) : List Char :=
  s.toList.map Char.toLower

/-- Python's substring test `p in s` over character lists. -/
def isSub (p : List Char) : List Char → Bool
  | [] => p.isEmpty
  | c :: s => p.isPrefixOf (c :: s) || isSub p s

/-- The loop body of `assign_role_from_industry`, generic in the keyword
configuration table: keep every role one of whose keywords occurs as a
substring of the lower-cased name, in configuration order. -/
def assignRolesFrom (config : List (String × List String))
    (industry_name : String) : List String :=
  (config.filter
    (fun rk => rk.2.any (fun kw => isSub kw.toList (lowerChars industry_name)))).map
    (fun rk => rk.1)

/-- `assign_role_from_industry`: lower-case the name, keep every role one of
whose keywords occurs as a substring, in `ROLE_KEYWORDS` order. -/
def assign_role_from_industry (industry_name : String) : List String :=
  assignRolesFrom ROLE_KEYWORDS industry_name

/-- `re`'s word character `\w`, restricted to ASCII: alphanumeric or `_`. -/
def isWordChar (c : Char) : Bool :=
  c.isAlphanum || c == '_'

/-- `skills["skill_name"].str.lower().str.replace(r"[^a-z0-9]+", "|")`:
every maximal run of non-alphanumeric characters becomes a single `|`.
The flag records whether we are inside such a run (its `|` already emitted). -/
def mkPatternAux : Bool → List Char → List Char
  | _, [] => []
  | inRun, c :: s =>
    if c.isAlphanum then c :: mkPatternAux false s
    else if inRun then mkPatternAux true s
    else '|' :: mkPatternAux true s

/-- The derived `pattern` column for a skill name. -/
def patternOf (name : String) : List Char :=
  mkPatternAux false (lowerChars name)

/-- Split a pattern on `|` into its alternation branches (branches may be
empty, exactly as in the regex `a|` which has an empty second branch). -/
def splitBar (l : List Char) : List (List Char) :=
  l.foldr
    (fun c acc =>
      if c = '|' then [] :: acc
      else
        match acc with
        | [] => [[c]]
        | h :: t => (c :: h) :: t)
    [[]]

/-- Is text position `i` on a word character (out of range counts as no)? -/
def wordAt (t : List Char) (i : Nat) : Bool :=
  isWordChar (t.getD i ' ')

/-- The regex word-boundary assertion `\b` at position `i` of `t`. -/
def boundary (t : List Char) (i : Nat) : Bool :=
  (if i = 0 then false else wordAt t (i - 1)) != wordAt t i

/-- `re.search(r"\b(" + pat + r")\b", text)` viewed as a Boolean: some
branch of the alternation occurs at some position with word boundaries on
both sides. An empty branch degenerates to two `\b` at the same position. -/
def reMatch (brs : List (List Char)) (t : List Char) : Bool :=
  (List.range (t.length + 1)).any (fun i =>
    brs.any (fun b =>
      boundary t i && ((t.drop i).take b.length == b) && boundary t (i + b.length)))

/-- `extract_resume_skills`: lower the resume text; for each catalog skill
whose pattern is neither empty nor exactly `"|"`, add its `skill_abr` when
the word-bounded alternation matches. The Python function returns a set;
the list below carries it in catalog order (only membership matters). -/
def extract_resume_skills (skills : List SkillRow) (resume_text : String) : List String :=
  let text := lowerChars resume_text
  (skills.filter (fun sk =>
    let pat := patternOf sk.skill_name
    !pat.isEmpty && !(pat == ['|']) && reMatch (splitBar pat) text)).map
    (fun sk => sk.skill_abr)

/-- `set(role_profile.loc[role_profile.required, "skill_abr"])`. -/
def reqSet (profile : List ProfileEntry) : Finset String :=
  ((profile.filter (fun e => e.required)).map (fun e => e.skill_abr)).toFinset

/-- `set(role_profile.loc[~role_profile.required, "skill_abr"])`. -/
def optSet (profile : List ProfileEntry) : Finset String :=
  ((profile.filter (fun e => !e.required)).map (fun e => e.skill_abr)).toFinset

/-- `fit_score(resume_skills, role_profile, required_weight=2.0)`:
weighted overlap of the resume's skill set with the profile's required and
optional skill sets, normalised by `required_weight*len(req) + len(opt)`;
`0.0` when that denominator is zero. This models the scorer on a profile
frame that carries the profile columns (any list of rows, including the
zero-row frame a role whose jobs have no skill links produces). The
column-less `pd.DataFrame()` returned for a zero-jobs role is NOT a value
of this type: on it the Python `role_profile.required` attribute access
raises `AttributeError`, modelled by `fit_score_on_frame` below. -/
def fit_score (resume_skills : Finset String) (role_profile : List ProfileEntry)
    (required_weight : ℚ) : ℚ :=
  let req := reqSet role_profile
  let opt := optSet role_profile
  let denom := required_weight * (req.card : ℚ) + (opt.card : ℚ)
  let score := ∑ s ∈ resume_skills,
    (if s ∈ req then required_weight else if s ∈ opt then (1 : ℚ) else 0)
  if denom = 0 then 0 else score / denom

/-- Python's `round(x, 2)` on exact values: round half to even at the
second decimal place. -/
def pyRound2 (x : ℚ) : ℚ :=
  let y := x * 100
  let n : ℤ := ⌊y⌋
  let r := y - (n : ℚ)
  (((if r < 1 / 2 then n
     else if (1 : ℚ) / 2 < r then n + 1
     else if n % 2 = 0 then n else n + 1) : ℤ) : ℚ) / 100

/-- `build_fit_report(resume_id, resume_text, role)`: extract resume skills,
look the role's profile up (the notebook indexes the `role_profiles` dict),
score with the default weight 2.0, and list matched names (profile order)
and missing required names (profile order), with the score rounded to two
decimals. -/
def build_fit_report (skills : List SkillRow)
    (role_profiles : List (String × List ProfileEntry))
    (resume_id : String) (resume_text : String) (role : String) : FitReport :=
  let rskills := extract_resume_skills skills resume_text
  let prof := (role_profiles.lookup role).getD []
  let score := fit_score rskills.toFinset prof 2
  let matched := (prof.filter (fun e => rskills.contains e.skill_abr)).map
    (fun e => e.skill_name)
  let missing := (prof.filter (fun e => !(rskills.contains e.skill_abr) && e.required)).map
    (fun e => e.skill_name)
  ⟨resume_id, role, pyRound2 score, matched, missing⟩

/-- A pandas dataframe holding a role profile, with the distinction the
list model erases: `rows` are the profile rows, and `has_schema` records
whether the frame carries the profile columns at all. The zero-jobs branch
of `build_role_skill_profile` returns a bare `pd.DataFrame()` with no
columns (`has_schema = false`), unlike the aggregated result, which has
the full column schema even with zero rows. -/
structure ProfileFrame where
  rows : List ProfileEntry
  has_schema : Bool
deriving DecidableEq, Repr

set_option linter.unusedVariables false in
/-- `build_role_skill_profile` with the frame distinction kept: a role
with no mapped jobs returns the column-less `pd.DataFrame()`; otherwise
the aggregated, schema-complete frame of `build_role_skill_profile`. -/
def build_role_skill_profile_frame (job_roles : List JobRoleRow)
    (job_skills : List JobSkillRow) (skills : List SkillRow)
    (role : String) (min_jobs : Nat) (required_pct : ℚ) : ProfileFrame :=
  if (jobsForRole job_roles role).length = 0 then ⟨[], false⟩
  else
    ⟨List.insertionSort (fun a b => b.pct_jobs ≤ a.pct_jobs)
      ((profileRows job_roles job_skills skills role).map
        (finalizeEntry role required_pct)), true⟩

/-- The Python call `fit_score(resume_skills, role_profile)` applied to a
raw frame: its first step, the attribute access `role_profile.required`,
raises `AttributeError` when the frame has no `required` column (as the
column-less `pd.DataFrame()` from a zero-jobs role does); otherwise the
scoring proceeds as `fit_score`. -/
def fit_score_on_frame (resume_skills : Finset String) (profile : ProfileFrame)
    (required_weight : ℚ) : Except String ℚ :=
  if profile.has_schema then
    Except.ok (fit_score resume_skills profile.rows required_weight)
  else
    Except.error "AttributeError: DataFrame object has no attribute required"

/-! ### Concrete scenario data -/

/-- Skill catalog of the round-trip scenario: `{S1: "Python", S2: "SQL"}`. -/
def c2Skills : List SkillRow := [⟨"S1", "Python"⟩, ⟨"S2", "SQL"⟩]

/-- Role profile of the round-trip scenario: S1 required (pct 0.6),
S2 optional (pct 0.2). -/
def c2Profile : List ProfileEntry :=
  [⟨"S1", some "Python", 3, 3 / 5, true, "ROLE"⟩,
   ⟨"S2", some "SQL", 1, 1 / 5, false, "ROLE"⟩]

/-- A profile in which the same `skill_abr` appears once as required and
once as optional (possible for raw profile lists, though not produced by
the builder from deduplicated counts). -/
def c3DupProfile : List ProfileEntry :=
  [⟨"A", none, 1, 1, true, "R"⟩, ⟨"A", none, 1, 1, false, "R"⟩]

/-- The ordering asserted by the spec for built profiles: `pct_jobs`
descending with ties broken by `skill_abr` ascending. -/
def specClaimedOrder (l : List ProfileEntry) : Prop :=
  l.Pairwise (fun a b =>
    b.pct_jobs < a.pct_jobs ∨ (a.pct_jobs = b.pct_jobs ∧ a.skill_abr ≤ b.skill_abr))

instance : DecidablePred specClaimedOrder := fun l =>
  l.instDecidablePairwise

/-! ### Pipeline lemmas -/

theorem mem_uniqueKeepAux [DecidableEq α] (seen l : List α) (x : α) :
    x ∈ uniqueKeepAux seen l ↔ x ∈ l ∧ x ∉ seen := by
  induction l generalizing seen with
  | nil => simp [uniqueKeepAux]
  | cons a l ih =>
    by_cases hxa : x = a <;> by_cases has : a ∈ seen <;>
      simp_all [uniqueKeepAux, ih]

theorem nodup_uniqueKeepAux [DecidableEq α] (seen l : List α) :
    (uniqueKeepAux seen l).Nodup := by
  induction l generalizing seen with
  | nil => simp [uniqueKeepAux]
  | cons a l ih =>
    simp only [uniqueKeepAux]
    split
    · exact ih _
    · refine List.nodup_cons.mpr ⟨?_, ih _⟩
      intro hmem
      exact ((mem_uniqueKeepAux _ _ _).mp hmem).2 (List.mem_cons_self a _)

theorem mem_uniqueKeep [DecidableEq α] (l : List α) (x : α) :
    x ∈ uniqueKeep l ↔ x ∈ l := by
  simp [uniqueKeep, mem_uniqueKeepAux]

theorem nodup_uniqueKeep [DecidableEq α] (l : List α) : (uniqueKeep l).Nodup :=
  nodup_uniqueKeepAux _ _

theorem mem_build {job_roles : List JobRoleRow} {job_skills : List JobSkillRow}
    {skills : List SkillRow} {role : String} {m : Nat} {p : ℚ} {e : ProfileEntry} :
    e ∈ build_role_skill_profile job_roles job_skills skills role m p ↔
      (jobsForRole job_roles role).length ≠ 0 ∧
        ∃ b ∈ profileRows job_roles job_skills skills role,
          e = finalizeEntry role p b := by
  unfold build_role_skill_profile
  split
  · rename_i h
    simp [h]
  · rename_i h
    rw [List.mem_insertionSort]
    simp only [List.mem_map, ne_eq, h, not_false_iff, true_and]
    constructor
    · rintro ⟨b, hb, rfl⟩
      exact ⟨b, hb, rfl⟩
    · rintro ⟨b, hb, rfl⟩
      exact ⟨b, hb, rfl⟩

theorem mem_profileRows {job_roles : List JobRoleRow} {job_skills : List JobSkillRow}
    {skills : List SkillRow} {role : String} {b : RowB} :
    b ∈ profileRows job_roles job_skills skills role ↔
      ∃ ac ∈ valueCounts ((filteredLinks job_roles job_skills role).map
          (fun r => r.skill_abr)),
        b ∈ mergeRows skills (jobsForRole job_roles role).length ac := by
  unfold profileRows
  simp only [List.mem_flatten, List.mem_map]
  constructor
  · rintro ⟨bl, ⟨ac, hac, rfl⟩, hb⟩
    exact ⟨ac, hac, hb⟩
  · rintro ⟨ac, hac, hb⟩
    exact ⟨mergeRows skills (jobsForRole job_roles role).length ac, ⟨ac, hac, rfl⟩, hb⟩

theorem mem_valueCounts {l : List String} {ac : String × Nat} :
    ac ∈ valueCounts l ↔ ac.1 ∈ l ∧ ac.2 = l.countP (fun x => x == ac.1) := by
  unfold valueCounts
  rw [List.mem_insertionSort]
  simp only [List.mem_map, mem_uniqueKeep]
  constructor
  · rintro ⟨a, ha, rfl⟩
    exact ⟨ha, rfl⟩
  · rintro ⟨h1, h2⟩
    exact ⟨ac.1, h1, by rw [← h2]⟩

theorem mem_mergeRows {skills : List SkillRow} {N : Nat} {ac : String × Nat}
    {b : RowB} (hb : b ∈ mergeRows skills N ac) :
    b.skill_abr = ac.1 ∧ b.count = ac.2 ∧ b.pct_jobs = (ac.2 : ℚ) / (N : ℚ) := by
  unfold mergeRows at hb
  split at hb
  · simp only [List.mem_singleton] at hb
    subst hb
    exact ⟨rfl, rfl, rfl⟩
  · rcases List.mem_map.mp hb with ⟨s, _, rfl⟩
    exact ⟨rfl, rfl, rfl⟩

/-! ### Claim theorems -/

/-- C9: `min_jobs` has no effect on the output of
`build_role_skill_profile`: any two values produce identical profiles. -/
theorem min_jobs_has_no_effect (job_roles : List JobRoleRow)
    (job_skills : List JobSkillRow) (skills : List SkillRow) (role : String)
    (m1 m2 : Nat) (required_pct : ℚ) :
    build_role_skill_profile job_roles job_skills skills role m1 required_pct
      = build_role_skill_profile job_roles job_skills skills role m2 required_pct :=
  rfl

/-- C2: the round-trip scenario. With catalog `{S1: Python, S2: SQL}` and a
profile where S1 is required and S2 optional, the resume "I know Python"
extracts exactly `{S1}`, scores `2/(2*1+1) = 2/3`, and the report lists
`matched_skills = ["Python"]`, `missing_skills = []`, `fit_score = 0.67`. -/
theorem roundtrip_scenario :
    extract_resume_skills c2Skills "I know Python" = ["S1"] ∧
    fit_score {"S1"} c2Profile 2 = 2 / 3 ∧
    build_fit_report c2Skills [("ROLE", c2Profile)] "r1" "I know Python" "ROLE"
      = ⟨"r1", "ROLE", 67 / 100, [some "Python"], []⟩ := by
  with_unfolding_all decide

/-- C1 counterexample: with a duplicated `(job_id, skill_abr)` link row,
the built profile contains an entry whose `pct_jobs` exceeds 1, so
`pct_jobs` does not lie in `[0,1]` when duplicates are counted. -/
theorem pct_jobs_exceeds_one_with_duplicates :
    ∃ e ∈ build_role_skill_profile [⟨1, "R"⟩] [⟨1, "A"⟩, ⟨1, "A"⟩] [] "R" 50 (3 / 10),
      ¬(0 ≤ e.pct_jobs ∧ e.pct_jobs ≤ 1) := by
  with_unfolding_all decide

/-- C7 counterexample: on links `[(1,"B"), (1,"A")]` both skills tie at
`pct_jobs = 1`, and the built profile keeps them in order `B, A`, so ties
are not broken by `skill_abr` ascending. -/
theorem profile_tie_not_broken_by_skill_abr :
    ¬ specClaimedOrder
      (build_role_skill_profile [⟨1, "R"⟩] [⟨1, "B"⟩, ⟨1, "A"⟩] [] "R" 50 (3 / 10)) := by
  with_unfolding_all decide

/-- C3 counterexample: a resume can contain every profiled skill and still
not score 1.0 — with the empty profile the score is 0.0, and with a profile
repeating one `skill_abr` as both required and optional the score of a full
resume is 2/3. -/
theorem full_resume_score_not_one :
    (∀ e ∈ ([] : List ProfileEntry), e.skill_abr ∈ (∅ : Finset String)) ∧
    fit_score ∅ [] 2 ≠ 1 ∧
    (∀ e ∈ c3DupProfile, e.skill_abr ∈ ({"A"} : Finset String)) ∧
    fit_score {"A"} c3DupProfile 2 ≠ 1 := by
  with_unfolding_all decide

/-- The frame-level builder refines the row-list builder: projecting the
rows recovers `build_role_skill_profile` on every input. -/
theorem rows_build_role_skill_profile_frame (job_roles : List JobRoleRow)
    (job_skills : List JobSkillRow) (skills : List SkillRow) (role : String)
    (m : Nat) (required_pct : ℚ) :
    (build_role_skill_profile_frame job_roles job_skills skills role m required_pct).rows
      = build_role_skill_profile job_roles job_skills skills role m required_pct := by
  unfold build_role_skill_profile_frame build_role_skill_profile
  split <;> rfl

/-- C4 (code bug): with job 1 mapped only to role "S", role "R" resolves
to zero jobs and `build_role_skill_profile` returns the column-less
`pd.DataFrame()` without raising — but scoring against that frame raises
`AttributeError` at the `role_profile.required` attribute access instead
of returning the claimed 0.0. The 0.0 result the spec intends is what the
scorer returns on a schema-complete empty profile (third conjunct). -/
theorem zero_jobs_scoring_raises :
    build_role_skill_profile_frame [⟨1, "S"⟩] [⟨1, "A"⟩] [⟨"A", "Alpha"⟩] "R" 50 (3 / 10)
      = ⟨[], false⟩ ∧
    fit_score_on_frame {"A"}
      (build_role_skill_profile_frame [⟨1, "S"⟩] [⟨1, "A"⟩] [⟨"A", "Alpha"⟩] "R" 50 (3 / 10)) 2
      = Except.error "AttributeError: DataFrame object has no attribute required" ∧
    fit_score {"A"} [] 2 = 0 := by
  have h1 : build_role_skill_profile_frame [⟨1, "S"⟩] [⟨1, "A"⟩] [⟨"A", "Alpha"⟩]
      "R" 50 (3 / 10) = ⟨[], false⟩ := by
    with_unfolding_all decide
  refine ⟨h1, ?_, ?_⟩
  · rw [h1]
    rfl
  · with_unfolding_all decide

/-- Membership characterisation of the generic classifier loop. -/
theorem mem_assignRolesFrom (config : List (String × List String))
    (name : String) (r : String) :
    r ∈ assignRolesFrom config name ↔
      ∃ rk ∈ config, rk.1 = r ∧ ∃ kw ∈ rk.2, isSub kw.toList (lowerChars name) = true := by
  simp only [assignRolesFrom, List.mem_map, List.mem_filter, List.any_eq_true]
  constructor
  · rintro ⟨rk, ⟨hmem, kw, hkw, hsub⟩, hr⟩
    exact ⟨rk, hmem, hr, kw, hkw, hsub⟩
  · rintro ⟨rk, hmem, hr, kw, hkw, hsub⟩
    exact ⟨rk, ⟨hmem, kw, hkw, hsub⟩, hr⟩

theorem assignRolesFrom_eq_nil (config : List (String × List String))
    (name : String) :
    assignRolesFrom config name = [] ↔
      ∀ rk ∈ config, ∀ kw ∈ rk.2, isSub kw.toList (lowerChars name) = false := by
  simp only [assignRolesFrom, List.map_eq_nil_iff, List.filter_eq_nil_iff,
    List.any_eq_true, not_exists, not_and, Bool.not_eq_true]

/-- C5: the classifier's output is exactly the set of configured role keys
one of whose keywords is a substring of the lower-cased industry name; it
is a subset of the role enumeration, and empty iff no keyword occurs. -/
theorem classifier_characterisation (name : String) :
    (∀ r, r ∈ assign_role_from_industry name ↔
      ∃ rk ∈ ROLE_KEYWORDS, rk.1 = r ∧
        ∃ kw ∈ rk.2, isSub kw.toList (lowerChars name) = true) ∧
    (∀ r ∈ assign_role_from_industry name, r ∈ ROLE_KEYWORDS.map Prod.fst) ∧
    (assign_role_from_industry name = [] ↔
      ∀ rk ∈ ROLE_KEYWORDS, ∀ kw ∈ rk.2, isSub kw.toList (lowerChars name) = false) := by
  refine ⟨fun r => mem_assignRolesFrom ROLE_KEYWORDS name r, ?_, ?_⟩
  · intro r hr
    rcases (mem_assignRolesFrom ROLE_KEYWORDS name r).mp hr with ⟨rk, hmem, hr1, _⟩
    exact List.mem_map.mpr ⟨rk, hmem, hr1⟩
  · exact assignRolesFrom_eq_nil ROLE_KEYWORDS name

/-- Witness for C5 at a concrete industry name. -/
theorem classifier_characterisation_witness :
    "ML_ENGINEER" ∈ assign_role_from_industry "Data Security" :=
  ((classifier_characterisation "Data Security").1 "ML_ENGINEER").mpr (by decide)

/-- C6: in every built profile, `required = true` exactly when
`pct_jobs >= required_pct`; and raising the threshold can only turn
required entries optional, never the reverse (an entry required at the
higher threshold is also required, for the same skill, at the lower one). -/
theorem required_iff_threshold (job_roles : List JobRoleRow)
    (job_skills : List JobSkillRow) (skills : List SkillRow) (role : String)
    (m : Nat) (p : ℚ) :
    (∀ e ∈ build_role_skill_profile job_roles job_skills skills role m p,
        e.required = true ↔ p ≤ e.pct_jobs) ∧
    (∀ p' : ℚ, p ≤ p' →
      ∀ e ∈ build_role_skill_profile job_roles job_skills skills role m p',
        e.required = true →
          ∃ e' ∈ build_role_skill_profile job_roles job_skills skills role m p,
            e'.skill_abr = e.skill_abr ∧ e'.required = true) := by
  constructor
  · intro e he
    rcases mem_build.mp he with ⟨_, b, _, rfl⟩
    simp [finalizeEntry]
  · intro p' hpp e he hereq
    rcases mem_build.mp he with ⟨hN, b, hb, rfl⟩
    refine ⟨finalizeEntry role p b, mem_build.mpr ⟨hN, b, hb, rfl⟩, rfl, ?_⟩
    simp only [finalizeEntry, decide_eq_true_eq] at hereq ⊢
    exact le_trans hpp hereq

/-- Witness for C6 at concrete inputs: the skill required at threshold 1/2
is still required at threshold 1/4. -/
theorem required_iff_threshold_witness :
    ∃ e' ∈ build_role_skill_profile [⟨1, "R"⟩] [⟨1, "A"⟩] [] "R" 50 (1 / 4),
      e'.skill_abr = "A" ∧ e'.required = true := by
  refine (required_iff_threshold [⟨1, "R"⟩] [⟨1, "A"⟩] [] "R" 50 (1 / 4)).2
    (1 / 2) (by norm_num) ⟨"A", none, 1, 1, true, "R"⟩ ?_ rfl
  with_unfolding_all decide

/-- C7 amended: every built profile is sorted by `pct_jobs` descending
(the code supplies no secondary sort key, so tie order is whatever the
aggregation produced, not `skill_abr` ascending). -/
theorem profile_sorted_desc (job_roles : List JobRoleRow)
    (job_skills : List JobSkillRow) (skills : List SkillRow) (role : String)
    (m : Nat) (p : ℚ) :
    (build_role_skill_profile job_roles job_skills skills role m p).Pairwise
      (fun a b => b.pct_jobs ≤ a.pct_jobs) := by
  unfold build_role_skill_profile
  split
  · simp
  · haveI : IsTotal ProfileEntry (fun a b => b.pct_jobs ≤ a.pct_jobs) :=
      ⟨fun a b => le_total b.pct_jobs a.pct_jobs⟩
    haveI : IsTrans ProfileEntry (fun a b => b.pct_jobs ≤ a.pct_jobs) :=
      ⟨fun _ _ _ hab hbc => le_trans hbc hab⟩
    exact List.sorted_insertionSort _ _

/-- C8: a `skill_abr` occurring in the role's job-skill links but absent
from the skill catalog is carried into the profile as an entry with a
missing (`none`) `skill_name`, never dropped. -/
theorem uncatalogued_skill_carried_through (job_roles : List JobRoleRow)
    (job_skills : List JobSkillRow) (skills : List SkillRow) (role : String)
    (m : Nat) (p : ℚ) (a : String)
    (hlink : a ∈ (filteredLinks job_roles job_skills role).map (fun r => r.skill_abr))
    (hcat : a ∉ skills.map (fun s => s.skill_abr)) :
    ∃ e ∈ build_role_skill_profile job_roles job_skills skills role m p,
      e.skill_abr = a ∧ e.skill_name = none := by
  have hN : (jobsForRole job_roles role).length ≠ 0 := by
    rcases List.mem_map.mp hlink with ⟨r, hr, rfl⟩
    have hc := (List.mem_filter.mp hr).2
    have hmem : r.job_id ∈ jobsForRole job_roles role := by
      simpa [List.elem_iff] using hc
    intro h0
    rw [List.length_eq_zero] at h0
    simp [h0] at hmem
  have hac : (a, ((filteredLinks job_roles job_skills role).map
        (fun r => r.skill_abr)).countP (fun x => x == a))
      ∈ valueCounts ((filteredLinks job_roles job_skills role).map
        (fun r => r.skill_abr)) :=
    mem_valueCounts.mpr ⟨hlink, rfl⟩
  have hfilter : (skills.filter (fun s => s.skill_abr == a)).isEmpty = true := by
    rw [List.isEmpty_iff, List.filter_eq_nil_iff]
    intro s hs heq
    exact hcat (List.mem_map.mpr ⟨s, hs, by simpa using heq⟩)
  refine ⟨finalizeEntry role p
      ⟨a, none, ((filteredLinks job_roles job_skills role).map
          (fun r => r.skill_abr)).countP (fun x => x == a),
        (((filteredLinks job_roles job_skills role).map
          (fun r => r.skill_abr)).countP (fun x => x == a) : ℚ) /
          ((jobsForRole job_roles role).length : ℚ)⟩,
    ?_, rfl, rfl⟩
  refine mem_build.mpr ⟨hN, _, ?_, rfl⟩
  refine mem_profileRows.mpr ⟨_, hac, ?_⟩
  unfold mergeRows
  rw [if_pos hfilter]
  exact List.mem_singleton.mpr rfl

/-- Witness for C8 at concrete inputs: skill "X" is linked to job 1 but
missing from the catalog, and survives with a `none` name. -/
theorem uncatalogued_skill_carried_through_witness :
    ∃ e ∈ build_role_skill_profile [⟨1, "R"⟩] [⟨1, "X"⟩] [⟨"Y", "Yoga"⟩] "R" 50 (3 / 10),
      e.skill_abr = "X" ∧ e.skill_name = none :=
  uncatalogued_skill_carried_through [⟨1, "R"⟩] [⟨1, "X"⟩] [⟨"Y", "Yoga"⟩] "R" 50 (3 / 10)
    "X" (by with_unfolding_all decide) (by with_unfolding_all decide)

/-- C1 amended: every built profile entry has `0 ≤ pct_jobs`, and when the
job-skill links contain no duplicate `(job_id, skill_abr)` pair,
`pct_jobs ≤ 1` as well (a duplicated pair can push it above 1). -/
theorem pct_jobs_bounds (job_roles : List JobRoleRow) (job_skills : List JobSkillRow)
    (skills : List SkillRow) (role : String) (m : Nat) (p : ℚ) (e : ProfileEntry)
    (he : e ∈ build_role_skill_profile job_roles job_skills skills role m p) :
    0 ≤ e.pct_jobs ∧
      ((job_skills.map (fun r => (r.job_id, r.skill_abr))).Nodup → e.pct_jobs ≤ 1) := by
  rcases mem_build.mp he with ⟨hN, b, hb, rfl⟩
  rcases mem_profileRows.mp hb with ⟨ac, hac, hbm⟩
  obtain ⟨habr, hcount, hpct⟩ := mem_mergeRows hbm
  have hpe : (finalizeEntry role p b).pct_jobs = b.pct_jobs := rfl
  constructor
  · rw [hpe, hpct]
    positivity
  · intro hnodup
    rw [hpe, hpct]
    have hNpos : 0 < ((jobsForRole job_roles role).length : ℚ) := by
      exact_mod_cast Nat.pos_of_ne_zero hN
    rw [div_le_one hNpos]
    have hcle : ac.2 ≤ (jobsForRole job_roles role).length := by
      rw [(mem_valueCounts.mp hac).2, List.countP_map, List.countP_eq_length_filter]
      set g := (filteredLinks job_roles job_skills role).filter
        ((fun x => x == ac.1) ∘ fun r => r.skill_abr) with hg
      have hsub : g.Sublist job_skills :=
        (List.filter_sublist _).trans (List.filter_sublist _)
      have hpairs : (g.map (fun r => (r.job_id, r.skill_abr))).Nodup :=
        List.Nodup.sublist (hsub.map _) hnodup
      have hjobs_nodup : (g.map (fun r => r.job_id)).Nodup := by
        have hmm : g.map (fun r => r.job_id)
            = (g.map (fun r => (r.job_id, r.skill_abr))).map Prod.fst := by
          rw [List.map_map]
          rfl
        rw [hmm]
        refine List.Nodup.map_on ?_ hpairs
        intro x hx y hy hxy
        rcases List.mem_map.mp hx with ⟨rx, hrx, rfl⟩
        rcases List.mem_map.mp hy with ⟨ry, hry, rfl⟩
        have hx2 : rx.skill_abr = ac.1 := by
          simpa using (List.mem_filter.mp hrx).2
        have hy2 : ry.skill_abr = ac.1 := by
          simpa using (List.mem_filter.mp hry).2
        simp only at hxy
        exact Prod.ext hxy (hx2.trans hy2.symm)
      have hsubset : ∀ j ∈ g.map (fun r => r.job_id), j ∈ jobsForRole job_roles role := by
        intro j hj
        rcases List.mem_map.mp hj with ⟨r, hr, rfl⟩
        have hr1 := (List.mem_filter.mp ((List.mem_filter.mp hr).1)).2
        simpa [List.elem_iff] using hr1
      calc g.length = (g.map (fun r => r.job_id)).length := (List.length_map _ _).symm
        _ ≤ _ := (List.subperm_of_subset hjobs_nodup hsubset).length_le
    exact_mod_cast hcle

/-- Witness for C1 amended at concrete inputs. -/
theorem pct_jobs_bounds_witness :
    0 ≤ (⟨"A", none, 1, 1, true, "R"⟩ : ProfileEntry).pct_jobs ∧
      (⟨"A", none, 1, 1, true, "R"⟩ : ProfileEntry).pct_jobs ≤ 1 :=
  ⟨(pct_jobs_bounds [⟨1, "R"⟩] [⟨1, "A"⟩] [] "R" 50 (3 / 10) _
      (by with_unfolding_all decide)).1,
   (pct_jobs_bounds [⟨1, "R"⟩] [⟨1, "A"⟩] [] "R" 50 (3 / 10) _
      (by with_unfolding_all decide)).2 (by with_unfolding_all decide)⟩

theorem mem_reqSet {profile : List ProfileEntry} {s : String} :
    s ∈ reqSet profile ↔ ∃ e ∈ profile, e.required = true ∧ e.skill_abr = s := by
  simp only [reqSet, List.mem_toFinset, List.mem_map, List.mem_filter]
  constructor
  · rintro ⟨e, ⟨he, hr⟩, rfl⟩
    exact ⟨e, he, hr, rfl⟩
  · rintro ⟨e, he, hr, rfl⟩
    exact ⟨e, ⟨he, hr⟩, rfl⟩

theorem mem_optSet {profile : List ProfileEntry} {s : String} :
    s ∈ optSet profile ↔ ∃ e ∈ profile, e.required = false ∧ e.skill_abr = s := by
  simp only [optSet, List.mem_toFinset, List.mem_map, List.mem_filter,
    Bool.not_eq_true']
  constructor
  · rintro ⟨e, ⟨he, hr⟩, rfl⟩
    exact ⟨e, he, hr, rfl⟩
  · rintro ⟨e, he, hr, rfl⟩
    exact ⟨e, ⟨he, hr⟩, rfl⟩

theorem weightSum_nonneg (resume req opt : Finset String) :
    0 ≤ ∑ s ∈ resume, (if s ∈ req then (2 : ℚ) else if s ∈ opt then 1 else 0) :=
  Finset.sum_nonneg fun s _ => by split_ifs <;> norm_num

theorem weightSum_le_inter (resume req opt : Finset String) :
    (∑ s ∈ resume, (if s ∈ req then (2 : ℚ) else if s ∈ opt then 1 else 0))
      ≤ 2 * ((resume ∩ req).card : ℚ) + ((resume ∩ opt).card : ℚ) := by
  have step : ∀ s ∈ resume,
      (if s ∈ req then (2 : ℚ) else if s ∈ opt then 1 else 0)
        ≤ (if s ∈ req then (2 : ℚ) else 0) + (if s ∈ opt then (1 : ℚ) else 0) := by
    intro s _
    by_cases h1 : s ∈ req <;> by_cases h2 : s ∈ opt <;> simp [h1, h2]
  calc (∑ s ∈ resume, (if s ∈ req then (2 : ℚ) else if s ∈ opt then 1 else 0))
      ≤ ∑ s ∈ resume,
          ((if s ∈ req then (2 : ℚ) else 0) + (if s ∈ opt then (1 : ℚ) else 0)) :=
        Finset.sum_le_sum step
    _ = 2 * ((resume ∩ req).card : ℚ) + ((resume ∩ opt).card : ℚ) := by
        rw [Finset.sum_add_distrib, Finset.sum_ite_mem, Finset.sum_ite_mem,
          Finset.sum_const, Finset.sum_const]
        simp only [nsmul_eq_mul, mul_one]
        ring

theorem weightSum_eq_inter (resume req opt : Finset String)
    (hdisj : ∀ s, s ∈ req → s ∉ opt) :
    (∑ s ∈ resume, (if s ∈ req then (2 : ℚ) else if s ∈ opt then 1 else 0))
      = 2 * ((resume ∩ req).card : ℚ) + ((resume ∩ opt).card : ℚ) := by
  have step : ∀ s ∈ resume,
      (if s ∈ req then (2 : ℚ) else if s ∈ opt then 1 else 0)
        = (if s ∈ req then (2 : ℚ) else 0) + (if s ∈ opt then (1 : ℚ) else 0) := by
    intro s _
    by_cases h1 : s ∈ req
    · simp [h1, hdisj s h1]
    · by_cases h2 : s ∈ opt <;> simp [h1, h2]
  calc (∑ s ∈ resume, (if s ∈ req then (2 : ℚ) else if s ∈ opt then 1 else 0))
      = ∑ s ∈ resume,
          ((if s ∈ req then (2 : ℚ) else 0) + (if s ∈ opt then (1 : ℚ) else 0)) :=
        Finset.sum_congr rfl step
    _ = 2 * ((resume ∩ req).card : ℚ) + ((resume ∩ opt).card : ℚ) := by
        rw [Finset.sum_add_distrib, Finset.sum_ite_mem, Finset.sum_ite_mem,
          Finset.sum_const, Finset.sum_const]
        simp only [nsmul_eq_mul, mul_one]
        ring

/-- C3 amended: `fit_score` (at the default weight 2) always lies in
`[0,1]`; and for a profile that is nonempty and repeats no `skill_abr`,
the score equals 1 exactly when the resume set contains every profiled
skill (the empty profile scores 0 even though it is vacuously covered,
and a `skill_abr` repeated as both required and optional also breaks the
equality). -/
theorem fit_score_bounds (resume : Finset String) (profile : List ProfileEntry) :
    (0 ≤ fit_score resume profile 2 ∧ fit_score resume profile 2 ≤ 1) ∧
    ((profile.map (fun e => e.skill_abr)).Nodup → profile ≠ [] →
      (fit_score resume profile 2 = 1 ↔ ∀ e ∈ profile, e.skill_abr ∈ resume)) := by
  have hcr : ((resume ∩ reqSet profile).card : ℚ) ≤ ((reqSet profile).card : ℚ) := by
    exact_mod_cast Finset.card_le_card Finset.inter_subset_right
  have hco : ((resume ∩ optSet profile).card : ℚ) ≤ ((optSet profile).card : ℚ) := by
    exact_mod_cast Finset.card_le_card Finset.inter_subset_right
  have hSle : (∑ s ∈ resume,
      (if s ∈ reqSet profile then (2 : ℚ) else if s ∈ optSet profile then 1 else 0))
      ≤ 2 * ((reqSet profile).card : ℚ) + ((optSet profile).card : ℚ) :=
    le_trans (weightSum_le_inter resume (reqSet profile) (optSet profile))
      (by linarith)
  have hS0 := weightSum_nonneg resume (reqSet profile) (optSet profile)
  have hD0 : (0 : ℚ) ≤ 2 * ((reqSet profile).card : ℚ) + ((optSet profile).card : ℚ) := by
    positivity
  constructor
  · simp only [fit_score]
    split
    · norm_num
    · rename_i hne
      have hpos : 0 < 2 * ((reqSet profile).card : ℚ) + ((optSet profile).card : ℚ) :=
        lt_of_le_of_ne hD0 (Ne.symm hne)
      exact ⟨div_nonneg hS0 hD0, (div_le_one hpos).mpr hSle⟩
  · intro hnd hne
    have hdisj : ∀ s, s ∈ reqSet profile → s ∉ optSet profile := by
      intro s hs hso
      rcases mem_reqSet.mp hs with ⟨e1, he1, hr1, habr1⟩
      rcases mem_optSet.mp hso with ⟨e2, he2, hr2, habr2⟩
      have heq : e1 = e2 :=
        List.inj_on_of_nodup_map hnd he1 he2 (habr1.trans habr2.symm)
      rw [heq, hr2] at hr1
      exact Bool.false_ne_true hr1
    have hDne : 2 * ((reqSet profile).card : ℚ) + ((optSet profile).card : ℚ) ≠ 0 := by
      obtain ⟨e, he⟩ := List.exists_mem_of_ne_nil profile hne
      cases hr : e.required
      · have hm : e.skill_abr ∈ optSet profile := mem_optSet.mpr ⟨e, he, hr, rfl⟩
        have h1 : 0 < (optSet profile).card := Finset.card_pos.mpr ⟨_, hm⟩
        have h1q : (1 : ℚ) ≤ ((optSet profile).card : ℚ) := by exact_mod_cast h1
        have h2q : (0 : ℚ) ≤ ((reqSet profile).card : ℚ) := by positivity
        intro hzero
        linarith
      · have hm : e.skill_abr ∈ reqSet profile := mem_reqSet.mpr ⟨e, he, hr, rfl⟩
        have h1 : 0 < (reqSet profile).card := Finset.card_pos.mpr ⟨_, hm⟩
        have h1q : (1 : ℚ) ≤ ((reqSet profile).card : ℚ) := by exact_mod_cast h1
        have h2q : (0 : ℚ) ≤ ((optSet profile).card : ℚ) := by positivity
        intro hzero
        linarith
    simp only [fit_score]
    rw [if_neg hDne, div_eq_one_iff_eq hDne]
    constructor
    · intro hSD
      by_contra hnot
      push_neg at hnot
      obtain ⟨e0, he0, hs0⟩ := hnot
      have hs0mem : e0.skill_abr ∈ reqSet profile ∨ e0.skill_abr ∈ optSet profile := by
        cases hr : e0.required
        · exact Or.inr (mem_optSet.mpr ⟨e0, he0, hr, rfl⟩)
        · exact Or.inl (mem_reqSet.mpr ⟨e0, he0, hr, rfl⟩)
      have hW := weightSum_le_inter resume (reqSet profile) (optSet profile)
      have hlt : (∑ s ∈ resume,
          (if s ∈ reqSet profile then (2 : ℚ) else if s ∈ optSet profile then 1 else 0))
          < 2 * ((reqSet profile).card : ℚ) + ((optSet profile).card : ℚ) := by
        rcases hs0mem with h | h
        · have hsub : resume ∩ reqSet profile ⊆ (reqSet profile).erase e0.skill_abr := by
            intro x hx
            rcases Finset.mem_inter.mp hx with ⟨hx1, hx2⟩
            refine Finset.mem_erase.mpr ⟨?_, hx2⟩
            rintro rfl
            exact hs0 hx1
          have h1 : 1 ≤ (reqSet profile).card := Finset.card_pos.mpr ⟨_, h⟩
          have hc1 : ((resume ∩ reqSet profile).card : ℚ)
              ≤ ((reqSet profile).card : ℚ) - 1 := by
            have hle := Finset.card_le_card hsub
            rw [Finset.card_erase_of_mem h] at hle
            calc ((resume ∩ reqSet profile).card : ℚ)
                ≤ (((reqSet profile).card - 1 : ℕ) : ℚ) := by exact_mod_cast hle
              _ = ((reqSet profile).card : ℚ) - 1 := by
                  rw [Nat.cast_sub h1]
                  norm_num
          linarith
        · have hsub : resume ∩ optSet profile ⊆ (optSet profile).erase e0.skill_abr := by
            intro x hx
            rcases Finset.mem_inter.mp hx with ⟨hx1, hx2⟩
            refine Finset.mem_erase.mpr ⟨?_, hx2⟩
            rintro rfl
            exact hs0 hx1
          have h1 : 1 ≤ (optSet profile).card := Finset.card_pos.mpr ⟨_, h⟩
          have hc1 : ((resume ∩ optSet profile).card : ℚ)
              ≤ ((optSet profile).card : ℚ) - 1 := by
            have hle := Finset.card_le_card hsub
            rw [Finset.card_erase_of_mem h] at hle
            calc ((resume ∩ optSet profile).card : ℚ)
                ≤ (((optSet profile).card - 1 : ℕ) : ℚ) := by exact_mod_cast hle
              _ = ((optSet profile).card : ℚ) - 1 := by
                  rw [Nat.cast_sub h1]
                  norm_num
          linarith
      exact absurd hSD (ne_of_lt hlt)
    · intro hall
      have hreqsub : reqSet profile ⊆ resume := by
        intro s hs
        rcases mem_reqSet.mp hs with ⟨e, he, _, rfl⟩
        exact hall e he
      have hoptsub : optSet profile ⊆ resume := by
        intro s hs
        rcases mem_optSet.mp hs with ⟨e, he, _, rfl⟩
        exact hall e he
      rw [weightSum_eq_inter resume _ _ hdisj,
        Finset.inter_eq_right.mpr hreqsub, Finset.inter_eq_right.mpr hoptsub]

/-- Witness for C3 amended at concrete inputs. -/
theorem fit_score_bounds_witness :
    (0 ≤ fit_score {"A"} [⟨"A", none, 1, 1, true, "R"⟩] 2 ∧
      fit_score {"A"} [⟨"A", none, 1, 1, true, "R"⟩] 2 ≤ 1) ∧
    (fit_score {"A"} [⟨"A", none, 1, 1, true, "R"⟩] 2 = 1 ↔
      ∀ e ∈ [(⟨"A", none, 1, 1, true, "R"⟩ : ProfileEntry)],
        e.skill_abr ∈ ({"A"} : Finset String)) :=
  ⟨(fit_score_bounds {"A"} [⟨"A", none, 1, 1, true, "R"⟩]).1,
   (fit_score_bounds {"A"} [⟨"A", none, 1, 1, true, "R"⟩]).2
     (by with_unfolding_all decide) (by with_unfolding_all decide)⟩

theorem boundary_cons_succ (c : Char) (t : List Char) (i : Nat)
    (hc : isWordChar c = false) :
    boundary (c :: t) (i + 1) = boundary t i := by
  cases i with
  | zero => simp [boundary, wordAt, hc]
  | succ j => simp [boundary, wordAt]

theorem exists_boundary (t : List Char) (h : ∃ c ∈ t, isWordChar c = true) :
    ∃ i, i ≤ t.length ∧ boundary t i = true := by
  induction t with
  | nil => simp at h
  | cons c t ih =>
    by_cases hc : isWordChar c = true
    · refine ⟨0, Nat.zero_le _, ?_⟩
      simp [boundary, wordAt, hc]
    · have hcf : isWordChar c = false := by simpa using hc
      have h' : ∃ d ∈ t, isWordChar d = true := by
        rcases h with ⟨d, hd, hw⟩
        rcases List.mem_cons.mp hd with rfl | hd'
        · exact absurd hw hc
        · exact ⟨d, hd', hw⟩
      rcases ih h' with ⟨i, hi, hb⟩
      refine ⟨i + 1, Nat.succ_le_succ hi, ?_⟩
      rw [boundary_cons_succ c t i hcf]
      exact hb

theorem isWordChar_toLower (c : Char) (h : c.isAlphanum = true) :
    isWordChar (Char.toLower c) = true := by
  simp only [Char.toLower]
  by_cases hc : c.toNat ≥ 65 ∧ c.toNat ≤ 90
  · rw [if_pos hc]
    obtain ⟨h1, h2⟩ := hc
    generalize c.toNat = m at h1 h2
    interval_cases m <;> decide
  · rw [if_neg hc]
    simp [isWordChar, h]

/-- C10: the extractor's guard only skips patterns that are empty or
exactly `"|"`. The catalog name "C++" derives the pattern `"c|"`, whose
alternation has an empty branch, so `extract_resume_skills` reports that
skill for every resume text containing at least one alphanumeric
character, whether or not any token of the name occurs in the text. -/
theorem degenerate_pattern_matches_everything (t : String)
    (h : ∃ c ∈ t.toList, c.isAlphanum = true) :
    patternOf "C++" = ['c', '|'] ∧
      "C" ∈ extract_resume_skills [⟨"C", "C++"⟩] t := by
  refine ⟨by decide, ?_⟩
  unfold extract_resume_skills
  refine List.mem_map.mpr ⟨⟨"C", "C++"⟩, ?_, rfl⟩
  refine List.mem_filter.mpr ⟨List.mem_singleton.mpr rfl, ?_⟩
  show (!(patternOf "C++").isEmpty && !(patternOf "C++" == ['|'])
      && reMatch (splitBar (patternOf "C++")) (lowerChars t)) = true
  have hpat : patternOf "C++" = ['c', '|'] := by decide
  rw [hpat]
  have hmatch : reMatch (splitBar ['c', '|']) (lowerChars t) = true := by
    have h' : ∃ d ∈ lowerChars t, isWordChar d = true := by
      rcases h with ⟨c, hc, hcw⟩
      exact ⟨Char.toLower c, List.mem_map.mpr ⟨c, hc, rfl⟩, isWordChar_toLower c hcw⟩
    obtain ⟨i, hi, hb⟩ := exists_boundary _ h'
    unfold reMatch
    rw [List.any_eq_true]
    refine ⟨i, List.mem_range.mpr (Nat.lt_succ_of_le hi), ?_⟩
    rw [List.any_eq_true]
    refine ⟨[], by simp [splitBar], ?_⟩
    simp [hb]
  rw [hmatch]
  decide

/-- Witness for C10 at a concrete resume text containing no token of
"C++" at all. -/
theorem degenerate_pattern_matches_everything_witness :
    patternOf "C++" = ['c', '|'] ∧
      "C" ∈ extract_resume_skills [⟨"C", "C++"⟩] "dog" :=
  degenerate_pattern_matches_everything "dog" (by decide)

end NeuraPath
